import Mathlib

/-!
# Verification of the Xero-AIChatbot internal mechanisms

Shallow embedding, in Lean 4, of the internal mechanisms of the
Xero-AIChatbot repository that its specification describes:

* the client-credentials token cache (`xeroAuth` module, `getAccessToken`),
* the token acquisition helpers of `xeroClient.js`
  (`getM2MToken`, `exchangeCodeForToken`, `refreshAccessToken`),
* the in-memory session store of the main Express server
  (`setSession`, `needsRefresh`, `ensureValidToken`),
* the MCP request/response correlation of `mcpClient.js`
  (`sendRequest`, `handleMessage`),
* the FIFO request queue of `backend/glmClient.js` (`GLMRequestQueue`),
  modelled as a discrete-event simulation of the Node.js event loop.

Times are epoch milliseconds modelled as `Nat` (`Int` where the JavaScript
subtraction may go negative).  HTTP calls are modelled by passing their
outcome as an explicit argument (`Except`-valued for calls that can throw).
-/

namespace XeroAuth

/-!
## Client-credentials token cache (`getAccessToken`)

Embedding of the module-level `tokenCache` and of `getAccessToken`.
The JavaScript cache starts as `{accessToken: null, expiresAt: null,
tenantId: null}`; `null` fields are modelled with `Option`.  The guard
`tokenCache.accessToken && Date.now() < tokenCache.expiresAt` reads, with a
`null` `expiresAt` (coerced to 0 by `<`), as false, which the `Option`
match reproduces.  The HTTP POST to the token endpoint is modelled by the
`exchange` argument: `Except.error` is an `axios` rejection (or a
non-200 status, which the code turns into a throw), `Except.ok` a
successful JSON body.
-/

/-- The record cached at module level by the client-credentials handler. -/
structure TokenCache where
  accessToken : Option String
  expiresAt : Option Nat
  tenantId : Option String
  deriving Repr, DecidableEq

/-- The initial value of the module-level cache (all fields `null`). -/
def initialTokenCache : TokenCache := ⟨none, none, none⟩

/-- The JSON body returned by the `identity.xero.com/connect/token`
endpoint: `access_token`, optional `expires_in` (seconds, a non-negative
integer per OAuth2) and optional `tenant_id`. -/
structure TokenResponse where
  access_token : String
  expires_in : Option Nat
  tenant_id : Option String
  deriving Repr, DecidableEq

/-- JavaScript `data.expires_in || 1800`: the default applies when the
field is absent and also when it is `0` (falsy). -/
def defaultExpiresIn (o : Option Nat) : Nat :=
  match o with
  | some v => if v = 0 then 1800 else v
  | none => 1800

/-- The cache-validity guard of `getAccessToken`:
`tokenCache.accessToken && Date.now() < tokenCache.expiresAt`.  JavaScript
string truthiness applies: a cached empty string is falsy, so it does not
count as a cached token and the guard fails. -/
def cacheValid (cache : TokenCache) (now : Nat) : Bool :=
  match cache.accessToken, cache.expiresAt with
  | some tok, some e => ¬ tok = "" ∧ now < e
  | _, _ => false

/-- The safety margin this flow applies when testing expiry: the code
compares `Date.now() < tokenCache.expiresAt` directly (the "subtract 5 min
buffer" comment is not implemented), so the margin is 0 ms. -/
def safetyMarginMs : Nat := 0

/-- The refresh path of `getAccessToken` (everything after the cache
check): perform the credential exchange, and on success store the new
token with expiry `now + expiresIn * 1000` before returning it.  The
result triple is (value returned / error thrown, cache after the call,
number of credential exchanges performed). -/
def getAccessTokenRefresh (cache : TokenCache) (now : Nat)
    (exchange : Except String TokenResponse) :
    Except String String × TokenCache × Nat :=
  match exchange with
  | .error e => (.error ("Failed to get Xero access token: " ++ e), cache, 1)
  | .ok data =>
      let expiresIn := defaultExpiresIn data.expires_in
      let newCache : TokenCache :=
        ⟨some data.access_token, some (now + expiresIn * 1000), data.tenant_id⟩
      (.ok data.access_token, newCache, 1)

/-- `getAccessToken`: return the cached token when the guard
`tokenCache.accessToken && Date.now() < tokenCache.expiresAt` holds (a
cached empty string is falsy, hence no hit), otherwise run the refresh
path. -/
def getAccessToken (cache : TokenCache) (now : Nat)
    (exchange : Except String TokenResponse) :
    Except String String × TokenCache × Nat :=
  match cache.accessToken, cache.expiresAt with
  | some tok, some e =>
      if ¬ tok = "" ∧ now < e then (.ok tok, cache, 0)
      else getAccessTokenRefresh cache now exchange
  | some _, none => getAccessTokenRefresh cache now exchange
  | none, _ => getAccessTokenRefresh cache now exchange

theorem defaultExpiresIn_pos (o : Option Nat) : 0 < defaultExpiresIn o := by
  match o with
  | none => decide
  | some v =>
      simp only [defaultExpiresIn]
      split
      · decide
      · omega

end XeroAuth

namespace XeroClient

/-!
## Token acquisition helpers of `xeroClient.js`

`getM2MToken`, `exchangeCodeForToken` and `refreshAccessToken` each wrap an
`axios.post` to `identity.xero.com/oauth/token` in `try/catch` and return a
`{success, ...}` object on every path.  The HTTP outcome is passed in
explicitly: `AxiosOutcome.ok` is a 2xx response (with a flag recording
whether its `Content-Type` is `text/html`, which `exchangeCodeForToken`
inspects), `AxiosOutcome.err` is a rejection carrying the optional HTTP
status of `error.response` and an error message.
-/

/-- JSON body of a successful token-endpoint response. -/
structure OAuthTokenResponse where
  access_token : String
  refresh_token : Option String
  expires_in : Option Nat
  token_type : Option String
  deriving Repr, DecidableEq

/-- Outcome of the `axios.post` call. -/
inductive AxiosOutcome where
  | ok (htmlContentType : Bool) (data : OAuthTokenResponse)
  | err (status : Option Nat) (msg : String)
  deriving Repr, DecidableEq

/-- The `tokens` object the three helpers build on success. -/
structure Tokens where
  accessToken : String
  refreshToken : Option String
  expiresIn : Nat
  tokenType : Option String
  expiresAt : Nat
  deriving Repr, DecidableEq

/-- The `{success: true, tokens}` / `{success: false, error}` shape all
three helpers return. -/
inductive TokenResult where
  | success (tokens : Tokens)
  | failure (error : String)
  deriving Repr, DecidableEq

/-- JavaScript `a || b` on an optional string (absent and `""` are falsy). -/
def jsOrString (a : Option String) (b : String) : String :=
  match a with
  | some s => if s = "" then b else s
  | none => b

/-- `getM2MToken`: client-credentials exchange.  On a 2xx response it
returns success with `expiresAt = Date.now() + expiresIn * 1000` (default
1800 s); a thrown error is caught and returned as `{success: false}`. -/
def getM2MToken (now : Nat) (outcome : AxiosOutcome) : TokenResult :=
  match outcome with
  | .ok _ data =>
      let expiresIn := XeroAuth.defaultExpiresIn data.expires_in
      .success ⟨data.access_token, none, expiresIn, data.token_type,
        now + expiresIn * 1000⟩
  | .err _ msg => .failure msg

/-- `exchangeCodeForToken`: authorization-code exchange.  A 2xx response
whose `Content-Type` is `text/html` is treated as a rejected request; a
thrown 401 yields a fixed message; otherwise the error data/message is
passed through. -/
def exchangeCodeForToken (now : Nat) (outcome : AxiosOutcome) : TokenResult :=
  match outcome with
  | .ok html data =>
      if html then
        .failure "Invalid Xero credentials or redirect URI mismatch"
      else
        let expiresIn := XeroAuth.defaultExpiresIn data.expires_in
        .success ⟨data.access_token, data.refresh_token, expiresIn,
          data.token_type, now + expiresIn * 1000⟩
  | .err status msg =>
      if status = some 401 then
        .failure "Authentication failed: Invalid Client ID, Client Secret, or Redirect URI"
      else .failure msg

/-- `refreshAccessToken`: refresh-token exchange.  On success the new
`refreshToken` is `response.data.refresh_token || refreshToken` (the old
one is kept when the response omits it). -/
def refreshAccessToken (refreshToken : String) (now : Nat)
    (outcome : AxiosOutcome) : TokenResult :=
  match outcome with
  | .ok _ data =>
      let expiresIn := XeroAuth.defaultExpiresIn data.expires_in
      .success ⟨data.access_token, some (jsOrString data.refresh_token refreshToken),
        expiresIn, data.token_type, now + expiresIn * 1000⟩
  | .err _ msg => .failure msg

end XeroClient

namespace MainServer

/-!
## In-memory session store of the main Express server (`unnamed/part_001`)

`sessions` is a `Map` from session id to a plain object; `setSession`
merges: `sessions.set(sessionId, {...existing, ...data, updatedAt:
Date.now()})`.  A `Session` collects the fields the server stores; a
`SessionUpdate` is the update object, with `some` marking the fields the
update mentions.  `ensureValidToken` is embedded with the outcomes of its
`xeroClient` calls passed as arguments (those helpers never throw, see
`XeroClient`); the pair returned is (result, stored session after the
call).
-/

/-- A stored session object. -/
structure Session where
  accessToken : Option String
  refreshToken : Option String
  expiresAt : Option Nat
  tenantId : Option String
  tenantName : Option String
  connected : Bool
  authType : Option String
  conversationHistory : List String
  oauthState : Option String
  updatedAt : Nat
  deriving Repr, DecidableEq

/-- An update object passed to `setSession`; `none` = field not mentioned. -/
structure SessionUpdate where
  accessToken : Option String := none
  refreshToken : Option String := none
  expiresAt : Option Nat := none
  tenantId : Option String := none
  tenantName : Option String := none
  connected : Option Bool := none
  authType : Option String := none
  conversationHistory : Option (List String) := none
  oauthState : Option String := none
  deriving Repr, DecidableEq

/-- Spread semantics for one field: the update's value if mentioned,
otherwise the existing one. -/
def mergeField {α : Type} (upd : Option α) (old : α) : α :=
  match upd with
  | some v => v
  | none => old

/-- `setSession` applied to an existing session:
`{...existing, ...data, updatedAt: Date.now()}`. -/
def setSession (existing : Session) (data : SessionUpdate) (now : Nat) : Session where
  accessToken := mergeField (data.accessToken.map some) existing.accessToken
  refreshToken := mergeField (data.refreshToken.map some) existing.refreshToken
  expiresAt := mergeField (data.expiresAt.map some) existing.expiresAt
  tenantId := mergeField (data.tenantId.map some) existing.tenantId
  tenantName := mergeField (data.tenantName.map some) existing.tenantName
  connected := mergeField data.connected existing.connected
  authType := mergeField (data.authType.map some) existing.authType
  conversationHistory := mergeField data.conversationHistory existing.conversationHistory
  oauthState := mergeField (data.oauthState.map some) existing.oauthState
  updatedAt := now

/-- `needsRefresh`: `Date.now() > expiresAt - 300000`, with a missing
expiry always needing refresh.  The subtraction is done in `Int` because
the JavaScript value may be negative. -/
def needsRefresh (expiresAt : Option Nat) (now : Nat) : Bool :=
  match expiresAt with
  | none => true
  | some e => decide ((now : Int) > (e : Int) - 300000)

/-- One entry of the Xero connections response. -/
structure Tenant where
  tenantId : String
  tenantName : String
  deriving Repr, DecidableEq

/-- Result shape of `xeroClient.getTenants`. -/
structure TenantsResult where
  success : Bool
  tenants : List Tenant
  deriving Repr, DecidableEq

/-- Result of `ensureValidToken` as seen by its caller. -/
inductive EVOutcome where
  | ok
  | fail (error : String)
  deriving Repr, DecidableEq

/-- The refresh body of `ensureValidToken` (the code after the
`needsRefresh` check, inside the `try`): the M2M branch refreshes via
client credentials and re-resolves the tenant; the OAuth branch refreshes
via the refresh token, keeping the old refresh token when no new one is
returned. -/
def refreshSession (session : Session) (now : Nat)
    (m2m : XeroClient.TokenResult) (tenantsR : TenantsResult)
    (refresh : XeroClient.TokenResult) : EVOutcome × Option Session :=
  if session.authType = some "m2m" then
    match m2m with
    | .failure _ => (.fail "M2M token refresh failed", some session)
    | .success toks =>
        match tenantsR.tenants, tenantsR.success with
        | t0 :: _, true =>
            let s' := setSession session
              { accessToken := some toks.accessToken
                tenantId := some t0.tenantId
                tenantName := some t0.tenantName
                expiresAt := some toks.expiresAt
                authType := some "m2m" } now
            (.ok, some s')
        | _, _ => (.fail "Failed to get tenants after M2M refresh", some session)
  else
    match session.refreshToken with
    | none => (.fail "No refresh token available", some session)
    | some rt =>
        if rt = "" then (.fail "No refresh token available", some session)
        else
        match refresh with
        | .failure _ => (.fail "Token refresh failed", some session)
        | .success toks =>
            let s' := setSession session
              { accessToken := some toks.accessToken
                refreshToken := some (XeroClient.jsOrString toks.refreshToken rt)
                expiresAt := some toks.expiresAt } now
            (.ok, some s')

/-- `ensureValidToken`: refresh the session's token when
`needsRefresh` says so.  `m2m`, `tenantsR` and `refresh` are the outcomes
of the `xeroClient.getM2MToken`, `xeroClient.getTenants` and
`xeroClient.refreshAccessToken` calls the function may make. -/
def ensureValidToken (sessionOpt : Option Session) (now : Nat)
    (m2m : XeroClient.TokenResult) (tenantsR : TenantsResult)
    (refresh : XeroClient.TokenResult) : EVOutcome × Option Session :=
  match sessionOpt with
  | none => (.fail "Not connected to Xero", none)
  | some session =>
    if !session.connected then (.fail "Not connected to Xero", some session)
    else if !needsRefresh session.expiresAt now then (.ok, some session)
    else refreshSession session now m2m tenantsR refresh

theorem ensureValidToken_refreshing (session : Session) (now : Nat)
    (m2m : XeroClient.TokenResult) (tenantsR : TenantsResult)
    (refresh : XeroClient.TokenResult)
    (hconn : session.connected = true)
    (hneeds : needsRefresh session.expiresAt now = true) :
    ensureValidToken (some session) now m2m tenantsR refresh =
      refreshSession session now m2m tenantsR refresh := by
  show (if (!session.connected) = true
      then (EVOutcome.fail "Not connected to Xero", some session)
      else if (!needsRefresh session.expiresAt now) = true
      then (EVOutcome.ok, some session)
      else refreshSession session now m2m tenantsR refresh) =
    refreshSession session now m2m tenantsR refresh
  rw [hconn, hneeds]
  rfl

end MainServer

namespace MCP

/-!
## Request/response correlation of `mcpClient.js`

`sendRequest` generates the correlation id `` `${Date.now()}-${this.requestId++}` ``,
stores `{resolve, reject}` in `pendingRequests` under that id, writes the
request to the child process, and arms a 30 000 ms timer that, if the id
is still pending, deletes it and rejects with `Error('MCP request
timeout')`.  `handleMessage` resolves and deletes the entry when an
incoming line's `id` is truthy and pending.  Because `requestId` is
incremented on every call, ids never collide (distinct counter values give
distinct `time-counter` strings), so an id is modelled as the pair
(timestamp, counter value).

The life of one request is modelled against a timestamped trace of the
events that can touch its pending entry: incoming messages (`recv`) and
the firing of its own timeout timer (`fire`).  Node.js delivers these
one at a time, in time order, which the fold reproduces.
-/

/-- A correlation id: (`Date.now()` at send, `requestId` counter value). -/
abbrev MCPId : Type := Nat × Nat

/-- The fixed per-request deadline of `sendRequest`. -/
def timeoutMs : Nat := 30000

/-- A message read from the child's stdout: its `id` field (`none` when
absent or falsy) and an opaque payload. -/
structure MCPMsg where
  id : Option MCPId
  payload : Nat
  deriving Repr, DecidableEq

/-- An event touching one request's pending entry. -/
inductive MCPEvent where
  | recv (m : MCPMsg)
  | fire
  deriving Repr, DecidableEq

/-- The state of one request: whether its id is still in
`pendingRequests`, and how its promise has settled (`none` = not yet;
`Except.ok` = resolved with a message, `Except.error` = rejected). -/
structure ReqState where
  pending : Bool
  outcome : Option (Except String MCPMsg)

/-- State right after `sendRequest` registered the id. -/
def initReq : ReqState := ⟨true, none⟩

/-- Effect of one event on the request with id `myId`: `handleMessage`
resolves the first pending match and deletes it; the timer rejects with
`'MCP request timeout'` if still pending; everything else is ignored. -/
def mcpStep (myId : MCPId) (s : ReqState) : MCPEvent → ReqState
  | .recv m =>
      match m.id with
      | some i =>
          if s.pending && i = myId then ⟨false, some (.ok m)⟩ else s
      | none => s
  | .fire => if s.pending then ⟨false, some (.error "MCP request timeout")⟩ else s

/-- Process a trace of events in order. -/
def mcpRun (myId : MCPId) (s : ReqState) (tr : List MCPEvent) : ReqState :=
  tr.foldl (mcpStep myId) s

/-- The first event of a trace that is a message matching `myId`. -/
def firstMatch (myId : MCPId) (tr : List MCPEvent) : Option MCPMsg :=
  tr.findSome? fun ev =>
    match ev with
    | .recv m =>
        match m.id with
        | some i => if i = myId then some m else none
        | none => none
    | .fire => none

/-- A settled request never changes again. -/
theorem mcpStep_settled (myId : MCPId) (s : ReqState) (ev : MCPEvent)
    (h : s.pending = false) : mcpStep myId s ev = s := by
  cases ev with
  | recv m =>
      simp only [mcpStep]
      match m.id with
      | some i => simp [h]
      | none => rfl
  | fire => simp [mcpStep, h]

theorem mcpRun_settled (myId : MCPId) (s : ReqState) (tr : List MCPEvent)
    (h : s.pending = false) : mcpRun myId s tr = s := by
  induction tr with
  | nil => rfl
  | cons ev tr ih => simpa [mcpRun, mcpStep_settled myId s ev h] using ih

/-- Processing a fire event while pending settles with the timeout error. -/
theorem mcpStep_fire_pending (myId : MCPId) (s : ReqState)
    (h : s.pending = true) :
    mcpStep myId s .fire = ⟨false, some (.error "MCP request timeout")⟩ := by
  simp [mcpStep, h]

/-- Processing the pre-timeout part of the trace (no fire event): if no
message matches, the request stays pending and unsettled; if one does, the
request settles with the first match. -/
theorem mcpRun_pre (myId : MCPId) (tr : List MCPEvent)
    (hnf : MCPEvent.fire ∉ tr) :
    (firstMatch myId tr = none → mcpRun myId initReq tr = initReq) ∧
    (∀ m, firstMatch myId tr = some m →
      mcpRun myId initReq tr = ⟨false, some (.ok m)⟩) := by
  induction tr with
  | nil => exact ⟨fun _ => rfl, fun m h => by simp [firstMatch] at h⟩
  | cons ev tr ih0 =>
      have hnf' : MCPEvent.fire ∉ tr := fun h => hnf (List.mem_cons_of_mem _ h)
      have ih := ih0 hnf'
      cases ev with
      | recv msg =>
          match hid : msg.id with
          | some i =>
              by_cases hi : i = myId
              · constructor
                · intro h
                  exfalso
                  simp [firstMatch, List.findSome?_cons, hid, hi] at h
                · intro m h
                  have hsome : some msg = some m := by
                    rw [← h]
                    simp [firstMatch, List.findSome?_cons, hid, hi]
                  cases hsome
                  have h1 : mcpStep myId initReq (.recv msg) =
                      ⟨false, some (.ok msg)⟩ := by
                    simp [mcpStep, hid, hi, initReq]
                  have h2 : mcpRun myId initReq (.recv msg :: tr) =
                      mcpRun myId ⟨false, some (.ok msg)⟩ tr := by
                    simp [mcpRun, h1]
                  rw [h2, mcpRun_settled _ _ tr rfl]
              · have hstep : mcpStep myId initReq (.recv msg) = initReq := by
                  simp [mcpStep, hid, initReq, hi]
                have hfm : firstMatch myId (.recv msg :: tr) = firstMatch myId tr := by
                  simp [firstMatch, List.findSome?_cons, hid, hi]
                constructor
                · intro h
                  rw [hfm] at h
                  simpa [mcpRun, hstep] using ih.1 h
                · intro m h
                  rw [hfm] at h
                  simpa [mcpRun, hstep] using ih.2 m h
          | none =>
              have hstep : mcpStep myId initReq (.recv msg) = initReq := by
                simp [mcpStep, hid]
              have hfm : firstMatch myId (.recv msg :: tr) = firstMatch myId tr := by
                simp [firstMatch, List.findSome?_cons, hid]
              constructor
              · intro h
                rw [hfm] at h
                simpa [mcpRun, hstep] using ih.1 h
              · intro m h
                rw [hfm] at h
                simpa [mcpRun, hstep] using ih.2 m h
      | fire => exact absurd (List.mem_cons_self _ _) hnf

/-- Full per-request behaviour: against any trace consisting of fire-free
pre-timeout traffic, the timer firing, and arbitrary post-timeout traffic,
the promise settles exactly once — with the first matching pre-timeout
message if there is one, and with the `'MCP request timeout'` rejection
otherwise; post-timeout events never change the outcome. -/
theorem mcpRun_full (myId : MCPId) (pre post : List MCPEvent)
    (hnf : MCPEvent.fire ∉ pre) :
    (firstMatch myId pre = none →
      mcpRun myId initReq (pre ++ MCPEvent.fire :: post) =
        ⟨false, some (.error "MCP request timeout")⟩) ∧
    (∀ m, firstMatch myId pre = some m →
      mcpRun myId initReq (pre ++ MCPEvent.fire :: post) =
        ⟨false, some (.ok m)⟩) := by
  have hsplit : ∀ s : ReqState,
      mcpRun myId s (pre ++ MCPEvent.fire :: post) =
        mcpRun myId (mcpStep myId (mcpRun myId s pre) .fire) post := by
    intro s
    simp [mcpRun, List.foldl_append]
  constructor
  · intro h
    rw [hsplit, (mcpRun_pre myId pre hnf).1 h, mcpStep_fire_pending myId initReq rfl,
      mcpRun_settled myId _ post rfl]
  · intro m h
    rw [hsplit, (mcpRun_pre myId pre hnf).2 m h,
      mcpStep_settled myId _ .fire rfl, mcpRun_settled myId _ post rfl]

end MCP

namespace GLMQueue

/-!
## The request queue of `backend/glmClient.js` (`GLMRequestQueue`)

The queue is driven by the Node.js event loop, which this section models
as a discrete-event simulation.  Three kinds of events touch the queue:

* an `add(requestFn)` call (`this.queue.push(...)`, then `this.process()`),
* the settlement of the operation `process` is awaiting
  (`resolve`/`reject`, then the `finally` block:
  `this.isProcessing = false; setTimeout(() => this.process(), 500)`),
* the firing of one of those 500 ms timers (`this.process()`).

`step` executes the earliest outstanding event (ties broken settlement
first, then timer, then `add`, reflecting that a promise continuation runs
before macrotasks due at the same instant).  The environment fixes the
workload: `n` `add` calls at nondecreasing times `addTime k`, where the
`k`-th operation runs for `dur k` milliseconds and resolves
(`outc k = true`) or rejects (`outc k = false`).  Each execution is
recorded in `hist` as a `RunRec` carrying the operation index, its start
and settlement instants, and the outcome its promise propagated.
-/

/-- The fixed inter-request delay: `setTimeout(() => this.process(), 500)`. -/
def cooldown : Nat := 500

/-- A workload: `n` `add` calls, the `k`-th at time `addTime k`, whose
operation takes `dur k` ms and succeeds iff `outc k`. -/
structure QEnv where
  n : Nat
  addTime : Nat → Nat
  dur : Nat → Nat
  outc : Nat → Bool

/-- `add` calls arrive in nondecreasing time order. -/
def QEnv.Wf (env : QEnv) : Prop := ∀ k, env.addTime k ≤ env.addTime (k + 1)

/-- One recorded execution: operation index, start time, settlement time,
and the outcome delivered to the caller's promise. -/
structure RunRec where
  op : Nat
  start : Nat
  stop : Nat
  result : Bool
  deriving Repr, DecidableEq

/-- The simulation state: the current instant, how many `add` calls have
been delivered, and the queue object's fields (`queue`, `isProcessing`),
plus the operation in flight, the pending cooldown timers (sorted), and
the completed executions in settlement order. -/
structure QState where
  clock : Nat
  nextAdd : Nat
  queue : List Nat
  isProcessing : Bool
  running : Option RunRec
  timers : List Nat
  hist : List RunRec
  deriving Repr, DecidableEq

/-- The state before any event. -/
def init : QState := ⟨0, 0, [], false, none, [], []⟩

/-- The body of `process()`: return if `isProcessing` or the queue is
empty, otherwise shift the head and start executing it. -/
def procStep (env : QEnv) (s : QState) : QState :=
  if s.isProcessing then s
  else
    match s.queue with
    | [] => s
    | k :: rest =>
        { s with
          queue := rest
          isProcessing := true
          running := some ⟨k, s.clock, s.clock + env.dur k, env.outc k⟩ }

/-- Settlement of the in-flight operation: deliver its outcome, append it
to the history, clear `isProcessing` and arm the 500 ms timer. -/
def doComplete (s : QState) (r : RunRec) : QState :=
  { s with
    clock := r.stop
    running := none
    isProcessing := false
    hist := s.hist ++ [r]
    timers := List.orderedInsert (· ≤ ·) (r.stop + cooldown) s.timers }

/-- A cooldown timer fires: it just calls `process()`. -/
def doTimer (env : QEnv) (s : QState) (τ : Nat) (rest : List Nat) : QState :=
  procStep env { s with clock := τ, timers := rest }

/-- The next `add` call arrives: push the operation, then `process()`. -/
def doAdd (env : QEnv) (s : QState) : QState :=
  procStep env
    { s with
      clock := env.addTime s.nextAdd
      nextAdd := s.nextAdd + 1
      queue := s.queue ++ [s.nextAdd] }

/-- `leAll t o`: `t` is no later than the (optional) instant `o`. -/
def leAll (t : Nat) : Option Nat → Prop
  | none => True
  | some u => t ≤ u

instance instDecidableLeAll (t : Nat) (o : Option Nat) : Decidable (leAll t o) :=
  match o with
  | none => .isTrue trivial
  | some u => Nat.decLe t u

/-- The instant of the next `add` call, if any remain. -/
def addCand (env : QEnv) (s : QState) : Option Nat :=
  if s.nextAdd < env.n then some (env.addTime s.nextAdd) else none

/-- Execute the earliest outstanding event (settlement, then timer, then
`add` on ties); do nothing if no event is outstanding. -/
def step (env : QEnv) (s : QState) : QState :=
  match s.running, s.timers with
  | some r, τ :: rest =>
      if r.stop ≤ τ ∧ leAll r.stop (addCand env s) then doComplete s r
      else if leAll τ (addCand env s) then doTimer env s τ rest
      else doAdd env s
  | some r, [] =>
      if leAll r.stop (addCand env s) then doComplete s r else doAdd env s
  | none, τ :: rest =>
      if leAll τ (addCand env s) then doTimer env s τ rest else doAdd env s
  | none, [] =>
      match addCand env s with
      | some _ => doAdd env s
      | none => s

/-- Run the simulation for `fuel` events. -/
def run (env : QEnv) : Nat → QState → QState
  | 0, s => s
  | fuel + 1, s => run env fuel (step env s)

/-- The operation index recorded in an optional in-flight record. -/
def runList (o : Option RunRec) : List Nat :=
  match o with
  | some r => [r.op]
  | none => []

/-- The inductive invariant of the simulation, except for the emptiness
of the queue in a fully idle state (which `procStep` only restores at the
end of an event). -/
structure InvCore (env : QEnv) (s : QState) : Prop where
  procEq : s.isProcessing = s.running.isSome
  order : s.hist.map RunRec.op ++ runList s.running ++ s.queue =
    List.range s.nextAdd
  nextLe : s.nextAdd ≤ env.n
  clockTimers : ∀ τ ∈ s.timers, s.clock ≤ τ
  timersSorted : List.Sorted (· ≤ ·) s.timers
  clockAdd : s.nextAdd < env.n → s.clock ≤ env.addTime s.nextAdd
  runningBounds : ∀ r, s.running = some r →
    r.start ≤ s.clock ∧ s.clock ≤ r.stop ∧ r.stop = r.start + env.dur r.op ∧
    r.result = env.outc r.op ∧ (∀ a ∈ s.hist, a.stop ≤ r.start)
  histClock : ∀ a ∈ s.hist, a.stop ≤ s.clock
  histShape : ∀ a ∈ s.hist,
    a.stop = a.start + env.dur a.op ∧ a.result = env.outc a.op
  histChain : s.hist.Pairwise fun a b => a.stop ≤ b.start

/-- The full inductive invariant. -/
structure Inv (env : QEnv) (s : QState) extends InvCore env s : Prop where
  deadQueue : s.running = none → s.timers = [] → s.queue = []

theorem inv_init (env : QEnv) : Inv env init := by
  refine ⟨⟨rfl, rfl, Nat.zero_le _, ?_, ?_, ?_, ?_, ?_, ?_, ?_⟩, ?_⟩ <;>
    simp [init, List.Sorted]

/-- `process()` preserves the invariant, and restores `deadQueue`. -/
theorem inv_procStep (env : QEnv) (s : QState) (h : InvCore env s) :
    Inv env (procStep env s) := by
  unfold procStep
  by_cases hp : s.isProcessing
  · rw [if_pos hp]
    have hrun : s.running.isSome := by rw [← h.procEq]; exact hp
    refine ⟨h, ?_⟩
    intro hnone
    rw [hnone] at hrun
    simp at hrun
  · rw [if_neg hp]
    have hnone : s.running = none := by
      have hpe := h.procEq
      cases hq : s.running with
      | none => rfl
      | some r =>
          rw [hq] at hpe
          simp at hpe
          exact absurd hpe hp
    rcases hq : s.queue with _ | ⟨k, rest⟩
    · exact ⟨h, fun _ _ => hq⟩
    · refine ⟨⟨rfl, ?_, h.nextLe, h.clockTimers, h.timersSorted, h.clockAdd,
        ?_, h.histClock, h.histShape, h.histChain⟩, by simp⟩
      · have := h.order
        rw [hnone, hq] at this
        simpa [runList] using this
      · intro r hr
        simp only [Option.some_inj] at hr
        subst hr
        refine ⟨le_refl _, Nat.le_add_right _ _, rfl, rfl, ?_⟩
        exact fun a ha => h.histClock a ha

/-- Settlement preserves the invariant, provided settlement is indeed the
earliest outstanding event. -/
theorem inv_doComplete (env : QEnv) (s : QState) (r : RunRec) (h : Inv env s)
    (hr : s.running = some r)
    (ht : ∀ τ ∈ s.timers, r.stop ≤ τ)
    (ha : leAll r.stop (addCand env s)) :
    Inv env (doComplete s r) := by
  obtain ⟨hstart, hclock, hstop, hres, hhist⟩ := h.runningBounds r hr
  refine ⟨⟨rfl, ?_, h.nextLe, ?_, ?_, ?_, ?_, ?_, ?_, ?_⟩, ?_⟩
  · show (s.hist ++ [r]).map RunRec.op ++ runList none ++ s.queue =
      List.range s.nextAdd
    have := h.order
    rw [hr] at this
    simpa [runList] using this
  · show ∀ τ ∈ List.orderedInsert (· ≤ ·) (r.stop + cooldown) s.timers, r.stop ≤ τ
    intro τ hτ
    rcases (List.mem_orderedInsert _).mp hτ with hτ | hτ
    · omega
    · exact ht τ hτ
  · exact h.timersSorted.orderedInsert _ _
  · show s.nextAdd < env.n → r.stop ≤ env.addTime s.nextAdd
    intro hlt
    have := ha
    unfold addCand at this
    rw [if_pos hlt] at this
    exact this
  · intro r' hr'
    simp [doComplete] at hr'
  · show ∀ a ∈ s.hist ++ [r], a.stop ≤ r.stop
    intro a ha'
    rcases List.mem_append.mp ha' with ha' | ha'
    · have := hhist a ha'
      omega
    · rcases List.mem_singleton.mp ha' with rfl
      exact le_refl _
  · show ∀ a ∈ s.hist ++ [r], _
    intro a ha'
    rcases List.mem_append.mp ha' with ha' | ha'
    · exact h.histShape a ha'
    · rcases List.mem_singleton.mp ha' with rfl
      exact ⟨hstop, hres⟩
  · show (s.hist ++ [r]).Pairwise fun a b => a.stop ≤ b.start
    refine List.pairwise_append.mpr ⟨h.histChain, List.pairwise_singleton _ _, ?_⟩
    intro a ha' b hb
    rcases List.mem_singleton.mp hb with rfl
    exact hhist a ha'
  · intro _ htim
    exfalso
    simp only [doComplete] at htim
    have : r.stop + cooldown ∈ List.orderedInsert (· ≤ ·) (r.stop + cooldown) s.timers :=
      (List.mem_orderedInsert _).mpr (Or.inl rfl)
    rw [htim] at this
    exact absurd this (List.not_mem_nil _)

/-- A timer firing preserves the invariant, provided it is the earliest
outstanding event. -/
theorem inv_doTimer (env : QEnv) (s : QState) (τ : Nat) (rest : List Nat)
    (h : Inv env s) (htim : s.timers = τ :: rest)
    (ha : leAll τ (addCand env s))
    (hstop : ∀ r, s.running = some r → τ ≤ r.stop) :
    Inv env (doTimer env s τ rest) := by
  have hhead : s.clock ≤ τ := h.clockTimers τ (by rw [htim]; exact List.mem_cons_self _ _)
  have hrest : ∀ τ' ∈ rest, τ ≤ τ' := by
    have := h.timersSorted
    rw [htim, List.sorted_cons] at this
    exact this.1
  have hrestSorted : List.Sorted (· ≤ ·) rest := by
    have := h.timersSorted
    rw [htim, List.sorted_cons] at this
    exact this.2
  apply inv_procStep
  refine ⟨h.procEq, h.order, h.nextLe, ?_, hrestSorted, ?_, ?_, ?_, h.histShape,
    h.histChain⟩
  · exact fun τ' hτ' => hrest τ' hτ'
  · intro hlt
    have := ha
    unfold addCand at this
    rw [if_pos hlt] at this
    exact this
  · intro r hr
    obtain ⟨hstart, hclock, hsp, hres, hh⟩ := h.runningBounds r hr
    exact ⟨le_trans hstart hhead, hstop r hr, hsp, hres, hh⟩
  · exact fun a ha' => le_trans (h.histClock a ha') hhead

/-- An `add` call preserves the invariant, provided it is the earliest
outstanding event. -/
theorem inv_doAdd (env : QEnv) (s : QState) (h : Inv env s) (hw : env.Wf)
    (hlt : s.nextAdd < env.n)
    (ht : ∀ τ ∈ s.timers, env.addTime s.nextAdd ≤ τ)
    (hstop : ∀ r, s.running = some r → env.addTime s.nextAdd ≤ r.stop) :
    Inv env (doAdd env s) := by
  have hcl : s.clock ≤ env.addTime s.nextAdd := h.clockAdd hlt
  apply inv_procStep
  refine ⟨h.procEq, ?_, hlt, ht, h.timersSorted, ?_, ?_, ?_, h.histShape,
    h.histChain⟩
  · show s.hist.map RunRec.op ++ runList s.running ++ (s.queue ++ [s.nextAdd]) =
      List.range (s.nextAdd + 1)
    rw [List.range_succ, ← h.order]
    simp [List.append_assoc]
  · intro _
    exact hw s.nextAdd
  · intro r hr
    obtain ⟨hstart, hclock, hsp, hres, hh⟩ := h.runningBounds r hr
    exact ⟨le_trans hstart hcl, hstop r hr, hsp, hres, hh⟩
  · exact fun a ha' => le_trans (h.histClock a ha') hcl

theorem addCand_some (env : QEnv) (s : QState) (t : Nat)
    (h : addCand env s = some t) :
    s.nextAdd < env.n ∧ t = env.addTime s.nextAdd := by
  unfold addCand at h
  split at h
  · exact ⟨by assumption, (Option.some_inj.mp h).symm⟩
  · exact absurd h (by simp)

/-- One event preserves the invariant. -/
theorem inv_step (env : QEnv) (s : QState) (hw : env.Wf) (h : Inv env s) :
    Inv env (step env s) := by
  unfold step
  rcases hrun : s.running with _ | r <;> rcases htm : s.timers with _ | ⟨τ, rest⟩
  · -- no running operation, no timers
    rcases hta : addCand env s with _ | t
    · simpa using h
    · simp only
      obtain ⟨hlt, rfl⟩ := addCand_some env s t hta
      refine inv_doAdd env s h hw hlt ?_ ?_
      · intro τ hτ
        rw [htm] at hτ
        exact absurd hτ (List.not_mem_nil _)
      · intro r hr
        rw [hrun] at hr
        exact absurd hr (by simp)
  · -- no running operation, a pending timer
    show Inv env
      (if leAll τ (addCand env s) then doTimer env s τ rest else doAdd env s)
    by_cases hc : leAll τ (addCand env s)
    · rw [if_pos hc]
      refine inv_doTimer env s τ rest h htm hc ?_
      intro r hr
      rw [hrun] at hr
      exact absurd hr (by simp)
    · rw [if_neg hc]
      rcases hta : addCand env s with _ | t
      · rw [hta] at hc
        exact absurd trivial hc
      · obtain ⟨hlt, rfl⟩ := addCand_some env s t hta
        rw [hta] at hc
        have htlt : env.addTime s.nextAdd < τ := by
          by_contra hgt
          exact hc (by unfold leAll; omega)
        refine inv_doAdd env s h hw hlt ?_ ?_
        · intro τ' hτ'
          rw [htm] at hτ'
          rcases List.mem_cons.mp hτ' with rfl | hτ'
          · omega
          · have := h.timersSorted
            rw [htm, List.sorted_cons] at this
            have := this.1 τ' hτ'
            omega
        · intro r hr
          rw [hrun] at hr
          exact absurd hr (by simp)
  · -- a running operation, no timers
    show Inv env
      (if leAll r.stop (addCand env s) then doComplete s r else doAdd env s)
    by_cases hc : leAll r.stop (addCand env s)
    · rw [if_pos hc]
      refine inv_doComplete env s r h hrun ?_ hc
      intro τ hτ
      rw [htm] at hτ
      exact absurd hτ (List.not_mem_nil _)
    · rw [if_neg hc]
      rcases hta : addCand env s with _ | t
      · rw [hta] at hc
        exact absurd trivial hc
      · obtain ⟨hlt, rfl⟩ := addCand_some env s t hta
        rw [hta] at hc
        have htlt : env.addTime s.nextAdd < r.stop := by
          by_contra hgt
          exact hc (by unfold leAll; omega)
        refine inv_doAdd env s h hw hlt ?_ ?_
        · intro τ hτ
          rw [htm] at hτ
          exact absurd hτ (List.not_mem_nil _)
        · intro r' hr'
          rw [hrun] at hr'
          rcases Option.some_inj.mp hr' with rfl
          omega
  · -- a running operation and a pending timer
    show Inv env
      (if r.stop ≤ τ ∧ leAll r.stop (addCand env s) then doComplete s r
       else if leAll τ (addCand env s) then doTimer env s τ rest
       else doAdd env s)
    by_cases hc1 : r.stop ≤ τ ∧ leAll r.stop (addCand env s)
    · rw [if_pos hc1]
      refine inv_doComplete env s r h hrun ?_ hc1.2
      intro τ' hτ'
      rw [htm] at hτ'
      rcases List.mem_cons.mp hτ' with rfl | hτ'
      · exact hc1.1
      · have := h.timersSorted
        rw [htm, List.sorted_cons] at this
        exact le_trans hc1.1 (this.1 τ' hτ')
    · rw [if_neg hc1]
      by_cases hc2 : leAll τ (addCand env s)
      · rw [if_pos hc2]
        refine inv_doTimer env s τ rest h htm hc2 ?_
        intro r' hr'
        rcases Option.some_inj.mp (hrun ▸ hr') with rfl
        -- τ ≤ r.stop from the failure of the settlement guard
        by_cases hrs : r.stop ≤ τ
        · -- then leAll r.stop (addCand) must fail: an add is due before r.stop
          rcases hta : addCand env s with _ | t
          · exfalso
            exact hc1 ⟨hrs, by rw [hta]; exact trivial⟩
          · rw [hta] at hc2
            by_cases hra : leAll r.stop (addCand env s)
            · exact absurd ⟨hrs, hra⟩ hc1
            · rw [hta] at hra
              unfold leAll at hc2 hra
              omega
        · omega
      · rw [if_neg hc2]
        rcases hta : addCand env s with _ | t
        · rw [hta] at hc2
          exact absurd trivial hc2
        · obtain ⟨hlt, rfl⟩ := addCand_some env s t hta
          rw [hta] at hc2
          have htlt : env.addTime s.nextAdd < τ := by
            by_contra hgt
            exact hc2 (by unfold leAll; omega)
          refine inv_doAdd env s h hw hlt ?_ ?_
          · intro τ' hτ'
            rw [htm] at hτ'
            rcases List.mem_cons.mp hτ' with rfl | hτ'
            · omega
            · have := h.timersSorted
              rw [htm, List.sorted_cons] at this
              have := this.1 τ' hτ'
              omega
          · intro r' hr'
            rcases Option.some_inj.mp (hrun ▸ hr') with rfl
            by_cases hrs : r.stop ≤ τ
            · by_cases hra : leAll r.stop (addCand env s)
              · exact absurd ⟨hrs, hra⟩ hc1
              · rw [hta] at hra
                unfold leAll at hra
                omega
            · omega

/-- Running the simulation preserves the invariant. -/
theorem inv_run (env : QEnv) (hw : env.Wf) :
    ∀ (fuel : Nat) (s : QState), Inv env s → Inv env (run env fuel s)
  | 0, _, h => h
  | fuel + 1, s, h => inv_run env hw fuel (step env s) (inv_step env s hw h)

/-- Bound on the number of outstanding or potential events. -/
def measureQ (env : QEnv) (s : QState) : Nat :=
  4 * (env.n - s.nextAdd) + 2 * s.queue.length +
    (if s.running.isSome then 2 else 0) + s.timers.length

/-- No event outstanding: all `add` calls delivered, nothing in flight,
no pending timer. -/
def Dead (env : QEnv) (s : QState) : Prop :=
  s.running = none ∧ s.timers = [] ∧ s.nextAdd = env.n

theorem step_dead (env : QEnv) (s : QState) (h : Dead env s) : step env s = s := by
  obtain ⟨h1, h2, h3⟩ := h
  have hac : addCand env s = none := by
    unfold addCand
    rw [h3]
    simp
  unfold step
  rw [h1, h2]
  show (match addCand env s with
    | some _ => doAdd env s
    | none => s) = s
  rw [hac]

theorem procStep_measure (env : QEnv) (s : QState) :
    measureQ env (procStep env s) ≤ measureQ env s := by
  unfold procStep
  by_cases hp : s.isProcessing
  · rw [if_pos hp]
  · rw [if_neg hp]
    rcases hq : s.queue with _ | ⟨k, rest⟩
    · exact le_refl _
    · unfold measureQ
      simp only [hq, List.length_cons, Option.isSome_some, if_true]
      cases s.running
      · simp
        omega
      · simp

theorem measure_doComplete (env : QEnv) (s : QState) (r : RunRec)
    (hrun : s.running = some r) :
    measureQ env (doComplete s r) < measureQ env s := by
  unfold measureQ doComplete
  simp [hrun, List.orderedInsert_length]
  omega

theorem measure_doTimer (env : QEnv) (s : QState) (τ : Nat) (rest : List Nat)
    (htm : s.timers = τ :: rest) :
    measureQ env (doTimer env s τ rest) < measureQ env s := by
  unfold doTimer
  apply lt_of_le_of_lt (procStep_measure env _)
  unfold measureQ
  simp [htm]

theorem measure_doAdd (env : QEnv) (s : QState) (hlt : s.nextAdd < env.n) :
    measureQ env (doAdd env s) < measureQ env s := by
  unfold doAdd
  apply lt_of_le_of_lt (procStep_measure env _)
  unfold measureQ
  simp
  omega

theorem step_measure (env : QEnv) (s : QState) (h : Inv env s)
    (hnd : ¬Dead env s) : measureQ env (step env s) < measureQ env s := by
  unfold step
  rcases hrun : s.running with _ | r <;> rcases htm : s.timers with _ | ⟨τ, rest⟩
  · rcases hta : addCand env s with _ | t
    · exfalso
      apply hnd
      refine ⟨hrun, htm, ?_⟩
      unfold addCand at hta
      split at hta
      · exact absurd hta (by simp)
      · have := h.nextLe
        omega
    · show measureQ env (doAdd env s) < measureQ env s
      exact measure_doAdd env s (addCand_some env s t hta).1
  · show measureQ env
      (if leAll τ (addCand env s) then doTimer env s τ rest else doAdd env s) <
      measureQ env s
    by_cases hc : leAll τ (addCand env s)
    · rw [if_pos hc]
      exact measure_doTimer env s τ rest htm
    · rw [if_neg hc]
      rcases hta : addCand env s with _ | t
      · rw [hta] at hc
        exact absurd trivial hc
      · exact measure_doAdd env s (addCand_some env s t hta).1
  · show measureQ env
      (if leAll r.stop (addCand env s) then doComplete s r else doAdd env s) <
      measureQ env s
    by_cases hc : leAll r.stop (addCand env s)
    · rw [if_pos hc]
      exact measure_doComplete env s r hrun
    · rw [if_neg hc]
      rcases hta : addCand env s with _ | t
      · rw [hta] at hc
        exact absurd trivial hc
      · exact measure_doAdd env s (addCand_some env s t hta).1
  · show measureQ env
      (if r.stop ≤ τ ∧ leAll r.stop (addCand env s) then doComplete s r
       else if leAll τ (addCand env s) then doTimer env s τ rest
       else doAdd env s) < measureQ env s
    by_cases hc1 : r.stop ≤ τ ∧ leAll r.stop (addCand env s)
    · rw [if_pos hc1]
      exact measure_doComplete env s r hrun
    · rw [if_neg hc1]
      by_cases hc2 : leAll τ (addCand env s)
      · rw [if_pos hc2]
        exact measure_doTimer env s τ rest htm
      · rw [if_neg hc2]
        rcases hta : addCand env s with _ | t
        · rw [hta] at hc2
          exact absurd trivial hc2
        · exact measure_doAdd env s (addCand_some env s t hta).1

theorem run_of_dead (env : QEnv) (fuel : Nat) (s : QState) (h : Dead env s) :
    run env fuel s = s := by
  induction fuel with
  | zero => rfl
  | succ f ih =>
      show run env f (step env s) = s
      rw [step_dead env s h]
      exact ih

/-- With fuel at least the event measure, the simulation drains fully. -/
theorem dead_run (env : QEnv) (hw : env.Wf) :
    ∀ (fuel : Nat) (s : QState), Inv env s → measureQ env s ≤ fuel →
      Dead env (run env fuel s) := by
  intro fuel
  induction fuel with
  | zero =>
      intro s h hm
      show Dead env s
      unfold measureQ at hm
      have htm : s.timers = [] := by
        rw [← List.length_eq_zero]
        omega
      have hrun : s.running = none := by
        cases hq : s.running with
        | none => rfl
        | some r =>
            rw [hq] at hm
            simp only [Option.isSome_some, if_true] at hm
            omega
      refine ⟨hrun, htm, ?_⟩
      have := h.nextLe
      omega
  | succ f ih =>
      intro s h hm
      by_cases hd : Dead env s
      · show Dead env (run env f (step env s))
        rw [step_dead env s hd, run_of_dead env f s hd]
        exact hd
      · show Dead env (run env f (step env s))
        have hdec := step_measure env s h hd
        exact ih (step env s) (inv_step env s hw h) (by omega)

theorem procStep_hist (env : QEnv) (s : QState) :
    (procStep env s).hist = s.hist := by
  unfold procStep
  by_cases hp : s.isProcessing
  · rw [if_pos hp]
  · rw [if_neg hp]
    rcases s.queue with _ | ⟨k, rest⟩
    · rfl
    · rfl

theorem procStep_of_processing (env : QEnv) (s : QState)
    (hp : s.isProcessing = true) : procStep env s = s := by
  unfold procStep
  rw [if_pos hp]

theorem doTimer_hist (env : QEnv) (s : QState) (τ : Nat) (rest : List Nat) :
    (doTimer env s τ rest).hist = s.hist := by
  unfold doTimer
  rw [procStep_hist]

theorem doAdd_hist (env : QEnv) (s : QState) :
    (doAdd env s).hist = s.hist := by
  unfold doAdd
  rw [procStep_hist]

theorem hist_step_grows (env : QEnv) (s : QState) :
    s.hist <+: (step env s).hist := by
  unfold step
  rcases hrun : s.running with _ | r <;> rcases htm : s.timers with _ | ⟨τ, rest⟩
  · rcases addCand env s with _ | t
    · exact List.prefix_rfl
    · show s.hist <+: (doAdd env s).hist
      rw [doAdd_hist]
  · show s.hist <+:
      (if leAll τ (addCand env s) then doTimer env s τ rest else doAdd env s).hist
    split
    · rw [doTimer_hist]
    · rw [doAdd_hist]
  · show s.hist <+:
      (if leAll r.stop (addCand env s) then doComplete s r else doAdd env s).hist
    split
    · exact List.prefix_append _ _
    · rw [doAdd_hist]
  · show s.hist <+:
      (if r.stop ≤ τ ∧ leAll r.stop (addCand env s) then doComplete s r
       else if leAll τ (addCand env s) then doTimer env s τ rest
       else doAdd env s).hist
    split
    · exact List.prefix_append _ _
    · split
      · rw [doTimer_hist]
      · rw [doAdd_hist]

theorem run_hist_grows (env : QEnv) :
    ∀ (fuel : Nat) (s : QState), s.hist <+: (run env fuel s).hist
  | 0, _ => List.prefix_rfl
  | fuel + 1, s =>
      List.IsPrefix.trans (hist_step_grows env s)
        (run_hist_grows env fuel (step env s))

/-- The executed operations, in order: completion order equals submission
order, and the operation in flight is the next submitted one. -/
theorem inv_hist_ops (env : QEnv) (s : QState) (h : Inv env s) :
    s.hist.map RunRec.op = List.range s.hist.length ∧
    (∀ r, s.running = some r → r.op = s.hist.length) := by
  constructor
  · have hord := h.order
    have hlenEq := congrArg List.length hord
    rw [List.length_append, List.length_append, List.length_range,
      List.length_map] at hlenEq
    have hlen : s.hist.length ≤ s.nextAdd := by omega
    have h1 : s.hist.map RunRec.op =
        (List.range s.nextAdd).take (s.hist.map RunRec.op).length := by
      rw [← hord, List.append_assoc, List.take_left]
    rw [h1, List.take_range, List.length_map, Nat.min_eq_left hlen]
  · intro r hr
    have hord := h.order
    rw [hr] at hord
    simp only [runList] at hord
    rw [List.append_assoc] at hord
    have hlenEq := congrArg List.length hord
    simp only [List.length_append, List.length_range, List.length_map,
      List.length_singleton] at hlenEq
    have h2 : (s.hist.map RunRec.op ++
        ([r.op] ++ s.queue))[(s.hist.map RunRec.op).length]? = some r.op := by
      rw [List.getElem?_append_right (le_refl _)]
      simp
    rw [hord] at h2
    rw [List.getElem?_range (by simp only [List.length_map]; omega)] at h2
    have := Option.some_inj.mp h2
    simp only [List.length_map] at this ⊢
    omega

/-!
### The cooldown gap under a restricted arrival pattern

The 500 ms gap between consecutive executions is *not* unconditional (see
the counterexample below): because `process()` clears `isProcessing`
before arming the timer, an `add` arriving while the queue is idle inside
a cooldown window starts at once.  `NoAddInCooldown` excludes exactly
those arrivals: no `add` call lands inside a half-open window
`[stop, stop + cooldown)` following some settlement.  Under it, the gap
invariant `GInv` holds.
-/

/-- No `add` call arrives within the cooldown window of any settlement of
the (final) history. -/
def NoAddInCooldown (env : QEnv) (hist : List RunRec) : Prop :=
  ∀ k < env.n, ∀ r ∈ hist,
    env.addTime k < r.stop ∨ r.stop + cooldown ≤ env.addTime k

instance decNoAddInCooldown (env : QEnv) (hist : List RunRec) :
    Decidable (NoAddInCooldown env hist) :=
  inferInstanceAs (Decidable (∀ k < env.n, ∀ r ∈ hist,
    env.addTime k < r.stop ∨ r.stop + cooldown ≤ env.addTime k))

/-- The cooldown-gap invariant. -/
structure GInv (env : QEnv) (s : QState) : Prop where
  gchain : s.hist.Pairwise fun a b => a.stop + cooldown ≤ b.start
  grun : ∀ r, s.running = some r →
    (∀ a ∈ s.hist, a.stop + cooldown ≤ r.start) ∧ s.timers = []
  gtimer : s.running = none → s.timers = [] ∨
    ∃ τ, s.timers = [τ] ∧ (∃ a ∈ s.hist, τ = a.stop + cooldown) ∧
      (∀ a ∈ s.hist, a.stop + cooldown ≤ τ)
  gidle : s.running = none → s.timers = [] →
    ∀ a ∈ s.hist, a.stop + cooldown ≤ s.clock

theorem ginv_init (env : QEnv) : GInv env init := by
  refine ⟨?_, ?_, ?_, ?_⟩ <;> simp [init]

theorem ginv_procStep (env : QEnv) (s : QState)
    (hrun : s.running = none) (hproc : s.isProcessing = false)
    (htim : s.timers = [])
    (hch : s.hist.Pairwise fun a b => a.stop + cooldown ≤ b.start)
    (hcl : ∀ a ∈ s.hist, a.stop + cooldown ≤ s.clock) :
    GInv env (procStep env s) := by
  unfold procStep
  rw [hproc]
  simp only [Bool.false_eq_true, if_false]
  rcases s.queue with _ | ⟨k, rest⟩
  · refine ⟨hch, ?_, fun _ => Or.inl htim, fun _ _ => hcl⟩
    intro r hr
    rw [hrun] at hr
    cases hr
  · refine ⟨hch, ?_, ?_, ?_⟩
    · intro r hr
      simp only [Option.some_inj] at hr
      subst hr
      exact ⟨hcl, htim⟩
    · intro hr
      cases hr
    · intro hr
      cases hr

theorem ginv_doComplete (env : QEnv) (s : QState) (r : RunRec)
    (h : Inv env s) (g : GInv env s) (hr : s.running = some r) :
    GInv env (doComplete s r) := by
  obtain ⟨hall, htimers⟩ := g.grun r hr
  obtain ⟨hstart, hclock, _, _, _⟩ := h.runningBounds r hr
  have htm' : (doComplete s r).timers = [r.stop + cooldown] := by
    show List.orderedInsert (· ≤ ·) (r.stop + cooldown) s.timers = _
    rw [htimers]
    rfl
  refine ⟨?_, ?_, ?_, ?_⟩
  · show (s.hist ++ [r]).Pairwise fun a b => a.stop + cooldown ≤ b.start
    refine List.pairwise_append.mpr ⟨g.gchain, List.pairwise_singleton _ _, ?_⟩
    intro a ha b hb
    rcases List.mem_singleton.mp hb with rfl
    exact hall a ha
  · intro r' hr'
    cases hr'
  · intro _
    right
    refine ⟨r.stop + cooldown, htm', ⟨r, ?_, rfl⟩, ?_⟩
    · exact List.mem_append.mpr (Or.inr (List.mem_singleton.mpr rfl))
    · intro a ha
      rcases List.mem_append.mp ha with ha | ha
      · have := hall a ha
        omega
      · rcases List.mem_singleton.mp ha with rfl
        omega
  · intro _ htim
    rw [htm'] at htim
    cases htim

/-- One event preserves the cooldown-gap invariant under the arrival
restriction. -/
theorem ginv_step (env : QEnv) (s : QState) (h : Inv env s) (g : GInv env s)
    (H : NoAddInCooldown env s.hist) : GInv env (step env s) := by
  have hproc0 : s.running = none → s.isProcessing = false := by
    intro hrun
    have := h.procEq
    rw [hrun] at this
    simpa using this
  unfold step
  rcases hrun : s.running with _ | r <;> rcases htm : s.timers with _ | ⟨τ, rest⟩
  · -- idle, no timers: possibly an add
    rcases hta : addCand env s with _ | t
    · exact g
    · show GInv env (doAdd env s)
      obtain ⟨hlt, rfl⟩ := addCand_some env s t hta
      unfold doAdd
      apply ginv_procStep
      · exact hrun
      · exact hproc0 hrun
      · exact htm
      · exact g.gchain
      · intro a ha
        have h1 := g.gidle hrun htm a ha
        have h2 := h.clockAdd hlt
        show a.stop + cooldown ≤ env.addTime s.nextAdd
        omega
  · -- idle, pending timer
    rcases g.gtimer hrun with htz | ⟨τ0, htm0, ⟨a0, ha0, hprov⟩, hbound⟩
    · rw [htm] at htz
      cases htz
    · rw [htm] at htm0
      injection htm0 with hτ hrest
      subst hτ
      subst hrest
      show GInv env
        (if leAll τ (addCand env s) then doTimer env s τ [] else doAdd env s)
      by_cases hc : leAll τ (addCand env s)
      · rw [if_pos hc]
        unfold doTimer
        apply ginv_procStep
        · exact hrun
        · exact hproc0 hrun
        · rfl
        · exact g.gchain
        · intro a ha
          exact hbound a ha
      · rw [if_neg hc]
        exfalso
        rcases hta : addCand env s with _ | t
        · rw [hta] at hc
          exact hc trivial
        · obtain ⟨hlt, rfl⟩ := addCand_some env s t hta
          rw [hta] at hc
          have h1 : a0.stop ≤ s.clock := h.histClock a0 ha0
          have h2 : s.clock ≤ env.addTime s.nextAdd := h.clockAdd hlt
          rcases H s.nextAdd hlt a0 ha0 with hlt' | hge
          · omega
          · unfold leAll at hc
            omega
  · -- running, no timers
    show GInv env
      (if leAll r.stop (addCand env s) then doComplete s r else doAdd env s)
    by_cases hc : leAll r.stop (addCand env s)
    · rw [if_pos hc]
      exact ginv_doComplete env s r h g hrun
    · rw [if_neg hc]
      -- `add` during execution: only enqueues
      have hp : s.isProcessing = true := by
        have := h.procEq
        rw [hrun] at this
        simpa using this
      unfold doAdd
      rw [procStep_of_processing env
        { s with
          clock := env.addTime s.nextAdd
          nextAdd := s.nextAdd + 1
          queue := s.queue ++ [s.nextAdd] } hp]
      obtain ⟨hall, htimers⟩ := g.grun r hrun
      refine ⟨g.gchain, ?_, ?_, ?_⟩
      · intro r' hr'
        have hr2 : s.running = some r' := hr'
        rw [hrun] at hr2
        injection hr2 with hr2
        subst hr2
        exact ⟨hall, htimers⟩
      · intro hr'
        have hr2 : s.running = none := hr'
        rw [hrun] at hr2
        cases hr2
      · intro hr' htimz
        have hr2 : s.running = none := hr'
        rw [hrun] at hr2
        cases hr2
  · -- running with a pending timer: impossible under the gap invariant
    exfalso
    have := (g.grun r hrun).2
    rw [htm] at this
    cases this

/-- Running preserves the cooldown-gap invariant, given the arrival
restriction on the final history. -/
theorem ginv_run (env : QEnv) (hw : env.Wf) :
    ∀ (fuel : Nat) (s : QState), Inv env s → GInv env s →
      NoAddInCooldown env (run env fuel s).hist → GInv env (run env fuel s)
  | 0, _, _, g, _ => g
  | fuel + 1, s, h, g, H => by
      show GInv env (run env fuel (step env s))
      refine ginv_run env hw fuel (step env s) (inv_step env s hw h) ?_ ?_
      · apply ginv_step env s h g
        intro k hk a hamem
        refine H k hk a ?_
        exact (run_hist_grows env fuel (step env s)).subset
          ((hist_step_grows env s).subset hamem)
      · exact H

end GLMQueue

/-!
## The claims
-/

/-- C2: the token cache never returns a token to a caller at a moment when
`now >= expiresAtEpochMs` of the cached entry: whenever `getAccessToken`
returns a token, the (possibly refreshed) cached entry holds that token
with an expiry strictly in the future; and whenever the cached token is
absent or its expiry has been reached (`cacheValid` is false), exactly one
credential exchange is performed, and on its success the new token is
stored with expiry `now + expiresIn * 1000` and returned. -/
theorem claim_C2_cache_invariant (cache : XeroAuth.TokenCache) (now : Nat)
    (exchange : Except String XeroAuth.TokenResponse) :
    (∀ t, (XeroAuth.getAccessToken cache now exchange).1 = .ok t →
      ∃ e, (XeroAuth.getAccessToken cache now exchange).2.1.expiresAt = some e ∧
        now < e ∧
        (XeroAuth.getAccessToken cache now exchange).2.1.accessToken = some t) ∧
    (XeroAuth.cacheValid cache now = false →
      (XeroAuth.getAccessToken cache now exchange).2.2 = 1 ∧
      ∀ data, exchange = .ok data →
        XeroAuth.getAccessToken cache now exchange =
          (.ok data.access_token,
           ⟨some data.access_token,
            some (now + XeroAuth.defaultExpiresIn data.expires_in * 1000),
            data.tenant_id⟩, 1)) := by
  have hrefresh : ∀ cv : XeroAuth.TokenCache,
      (∀ t, (XeroAuth.getAccessTokenRefresh cv now exchange).1 = .ok t →
        ∃ e, (XeroAuth.getAccessTokenRefresh cv now exchange).2.1.expiresAt = some e ∧
          now < e ∧
          (XeroAuth.getAccessTokenRefresh cv now exchange).2.1.accessToken = some t) ∧
      ((XeroAuth.getAccessTokenRefresh cv now exchange).2.2 = 1 ∧
        ∀ data, exchange = .ok data →
          XeroAuth.getAccessTokenRefresh cv now exchange =
            (.ok data.access_token,
             ⟨some data.access_token,
              some (now + XeroAuth.defaultExpiresIn data.expires_in * 1000),
              data.tenant_id⟩, 1)) := by
    intro cv
    cases exchange with
    | error e =>
        refine ⟨?_, rfl, ?_⟩
        · intro t ht
          cases ht
        · intro data hd
          cases hd
    | ok data =>
        refine ⟨?_, rfl, ?_⟩
        · intro t ht
          have ht' : data.access_token = t := by
            have : (Except.ok data.access_token : Except String String) = .ok t := ht
            injection this
          subst ht'
          refine ⟨now + XeroAuth.defaultExpiresIn data.expires_in * 1000, rfl, ?_, rfl⟩
          have := XeroAuth.defaultExpiresIn_pos data.expires_in
          omega
        · intro data' hd
          have : data = data' := by injection hd
          subst this
          rfl
  rcases hca : cache.accessToken with _ | tok <;>
    rcases hce : cache.expiresAt with _ | e
  · -- no token, no expiry
    have hred : XeroAuth.getAccessToken cache now exchange =
        XeroAuth.getAccessTokenRefresh cache now exchange := by
      unfold XeroAuth.getAccessToken
      rw [hca]
    rw [hred]
    exact ⟨(hrefresh cache).1, fun _ => (hrefresh cache).2⟩
  · have hred : XeroAuth.getAccessToken cache now exchange =
        XeroAuth.getAccessTokenRefresh cache now exchange := by
      unfold XeroAuth.getAccessToken
      rw [hca]
    rw [hred]
    exact ⟨(hrefresh cache).1, fun _ => (hrefresh cache).2⟩
  · have hred : XeroAuth.getAccessToken cache now exchange =
        XeroAuth.getAccessTokenRefresh cache now exchange := by
      unfold XeroAuth.getAccessToken
      rw [hca, hce]
    rw [hred]
    exact ⟨(hrefresh cache).1, fun _ => (hrefresh cache).2⟩
  · -- cached token with expiry
    have hred : XeroAuth.getAccessToken cache now exchange =
        if ¬ tok = "" ∧ now < e then (.ok tok, cache, 0)
        else XeroAuth.getAccessTokenRefresh cache now exchange := by
      unfold XeroAuth.getAccessToken
      rw [hca, hce]
    by_cases hg : ¬ tok = "" ∧ now < e
    · rw [hred, if_pos hg]
      constructor
      · intro t ht
        have ht' : tok = t := by
          have : (Except.ok tok : Except String String) = .ok t := ht
          injection this
        subst ht'
        exact ⟨e, hce, hg.2, hca⟩
      · intro hfalse
        exfalso
        unfold XeroAuth.cacheValid at hfalse
        rw [hca, hce] at hfalse
        rw [decide_eq_false_iff_not] at hfalse
        exact hfalse hg
    · rw [hred, if_neg hg]
      exact ⟨(hrefresh cache).1, fun _ => (hrefresh cache).2⟩

/-- Witness for C2 at a concrete expired cache: the refresh is performed
once and the new token is stored and returned. -/
theorem claim_C2_cache_invariant_witness :
    XeroAuth.getAccessToken ⟨some "old", some 5, none⟩ 10
        (.ok ⟨"new", some 60, none⟩) =
      (.ok "new", ⟨some "new", some (10 + 60 * 1000), none⟩, 1) := by
  have h := (claim_C2_cache_invariant ⟨some "old", some 5, none⟩ 10
    (.ok ⟨"new", some 60, none⟩)).2 (by decide)
  exact h.2 ⟨"new", some 60, none⟩ rfl

/-- C6: if a cached token exists (a truthy string — the source guard
`tokenCache.accessToken && ...` treats an empty string as no token) and
the current time is strictly before its expiry minus the safety margin
(0 ms in this flow), `getAccessToken` returns the cached value with no
I/O: the cache is unchanged and no credential exchange is performed
(exchange count 0), whatever the outcome of a hypothetical exchange would
have been. -/
theorem claim_C6_cache_hit (cache : XeroAuth.TokenCache) (now : Nat)
    (tok : String) (e : Nat) (exchange : Except String XeroAuth.TokenResponse)
    (htok : cache.accessToken = some tok) (htokT : ¬ tok = "")
    (hexp : cache.expiresAt = some e)
    (hvalid : now < e - XeroAuth.safetyMarginMs) :
    XeroAuth.getAccessToken cache now exchange = (.ok tok, cache, 0) := by
  have hlt : now < e := by
    have : e - XeroAuth.safetyMarginMs = e := by
      unfold XeroAuth.safetyMarginMs
      omega
    omega
  unfold XeroAuth.getAccessToken
  rw [htok, hexp]
  exact if_pos ⟨htokT, hlt⟩

/-- Witness for C6: a second call within the validity window returns the
cached value even if the exchange double would fail. -/
theorem claim_C6_cache_hit_witness :
    XeroAuth.getAccessToken ⟨some "tok", some 100, none⟩ 5 (.error "exchange double called") =
      (.ok "tok", ⟨some "tok", some 100, none⟩, 0) :=
  claim_C6_cache_hit ⟨some "tok", some 100, none⟩ 5 "tok" 100
    (.error "exchange double called") rfl (by decide) rfl (by decide)

/-- C4: a failed credential exchange is surfaced (the thrown error) and
leaves the token cache exactly in its previous state; likewise a failed
refresh inside `ensureValidToken` (both the M2M and the OAuth branch)
returns a failure and leaves the stored session unchanged. -/
theorem claim_C4_failure_preserves_state :
    (∀ (cache : XeroAuth.TokenCache) (now : Nat) (err : String),
      (XeroAuth.getAccessToken cache now (.error err)).2.1 = cache) ∧
    (∀ (cache : XeroAuth.TokenCache) (now : Nat) (err : String),
      XeroAuth.cacheValid cache now = false →
      (XeroAuth.getAccessToken cache now (.error err)).1 =
        .error ("Failed to get Xero access token: " ++ err)) ∧
    (∀ (s : MainServer.Session) (now : Nat) (m2m : XeroClient.TokenResult)
        (tR : MainServer.TenantsResult) (err : String),
      MainServer.needsRefresh s.expiresAt now = true →
      s.connected = true →
      ¬ s.authType = some "m2m" →
      MainServer.ensureValidToken (some s) now m2m tR (.failure err) =
          (.fail "Token refresh failed", some s) ∨
      MainServer.ensureValidToken (some s) now m2m tR (.failure err) =
          (.fail "No refresh token available", some s)) ∧
    (∀ (s : MainServer.Session) (now : Nat) (tR : MainServer.TenantsResult)
        (refresh : XeroClient.TokenResult) (err : String),
      MainServer.needsRefresh s.expiresAt now = true →
      s.connected = true →
      s.authType = some "m2m" →
      MainServer.ensureValidToken (some s) now (.failure err) tR refresh =
        (.fail "M2M token refresh failed", some s)) := by
  refine ⟨?_, ?_, ?_, ?_⟩
  · intro cache now err
    obtain ⟨ca, ce, ct⟩ := cache
    rcases ca with _ | tok <;> rcases ce with _ | e <;> try rfl
    show (if ¬ tok = "" ∧ now < e then
        ((Except.ok tok : Except String String),
         (⟨some tok, some e, ct⟩ : XeroAuth.TokenCache), (0 : Nat))
      else XeroAuth.getAccessTokenRefresh ⟨some tok, some e, ct⟩ now
        (.error err)).2.1 = ⟨some tok, some e, ct⟩
    by_cases hg : ¬ tok = "" ∧ now < e
    · rw [if_pos hg]
    · rw [if_neg hg]
      rfl
  · intro cache now err hmiss
    obtain ⟨ca, ce, ct⟩ := cache
    rcases ca with _ | tok <;> rcases ce with _ | e <;> try rfl
    have hng : ¬ (¬ tok = "" ∧ now < e) := by
      have hcv : XeroAuth.cacheValid ⟨some tok, some e, ct⟩ now =
          decide (¬ tok = "" ∧ now < e) := rfl
      rw [hcv] at hmiss
      exact of_decide_eq_false hmiss
    show (if ¬ tok = "" ∧ now < e then
        ((Except.ok tok : Except String String),
         (⟨some tok, some e, ct⟩ : XeroAuth.TokenCache), (0 : Nat))
      else XeroAuth.getAccessTokenRefresh ⟨some tok, some e, ct⟩ now
        (.error err)).1 = .error ("Failed to get Xero access token: " ++ err)
    rw [if_neg hng]
    rfl
  · intro s now m2m tR err hneeds hconn hauth
    rw [MainServer.ensureValidToken_refreshing s now m2m tR (.failure err)
      hconn hneeds]
    unfold MainServer.refreshSession
    rw [if_neg hauth]
    rcases hrt : s.refreshToken with _ | rt
    · right
      rfl
    · show (if rt = ""
            then (MainServer.EVOutcome.fail "No refresh token available", some s)
            else (MainServer.EVOutcome.fail "Token refresh failed", some s)) =
          (MainServer.EVOutcome.fail "Token refresh failed", some s) ∨
        (if rt = ""
            then (MainServer.EVOutcome.fail "No refresh token available", some s)
            else (MainServer.EVOutcome.fail "Token refresh failed", some s)) =
          (MainServer.EVOutcome.fail "No refresh token available", some s)
      by_cases hrtE : rt = ""
      · right
        rw [if_pos hrtE]
      · left
        rw [if_neg hrtE]
  · intro s now tR refresh err hneeds hconn hauth
    rw [MainServer.ensureValidToken_refreshing s now (.failure err) tR refresh
      hconn hneeds]
    unfold MainServer.refreshSession
    rw [if_pos hauth]

/-- Witness for C4 at concrete inputs: a failed exchange on an expired
cache keeps the stale entry, and a failed OAuth refresh keeps the session. -/
theorem claim_C4_failure_preserves_state_witness :
    (XeroAuth.getAccessToken ⟨some "stale", some 5, none⟩ 10 (.error "boom")).2.1 =
      ⟨some "stale", some 5, none⟩ ∧
    (MainServer.ensureValidToken
        (some ⟨some "at", some "rt", some 5, none, none, true, none, [], none, 0⟩)
        10 (.failure "m") ⟨true, []⟩ (.failure "refresh down") =
        (.fail "Token refresh failed",
         some ⟨some "at", some "rt", some 5, none, none, true, none, [], none, 0⟩) ∨
      MainServer.ensureValidToken
        (some ⟨some "at", some "rt", some 5, none, none, true, none, [], none, 0⟩)
        10 (.failure "m") ⟨true, []⟩ (.failure "refresh down") =
        (.fail "No refresh token available",
         some ⟨some "at", some "rt", some 5, none, none, true, none, [], none, 0⟩)) := by
  constructor
  · exact claim_C4_failure_preserves_state.1 ⟨some "stale", some 5, none⟩ 10 "boom"
  · exact claim_C4_failure_preserves_state.2.2.1
      ⟨some "at", some "rt", some 5, none, none, true, none, [], none, 0⟩
      10 (.failure "m") ⟨true, []⟩ "refresh down" (by decide) rfl (by decide)

/-- C9 counterexample: the claim "every field of the existing session that
the update does not mention keeps its previous value" fails as stated —
for a stored session with `updatedAt = 5` and the empty update (which
mentions no field), `setSession` at time 10 changes the stored
`updatedAt` field to 10. -/
theorem claim_C9_counterexample :
    (MainServer.setSession
        ⟨none, none, none, none, none, false, none, [], none, 5⟩ {} 10).updatedAt ≠
      (⟨none, none, none, none, none, false, none, [], none, 5⟩ :
        MainServer.Session).updatedAt := by
  decide

/-- Reduction of the OAuth-refresh success path of `refreshSession`. -/
theorem refreshSession_oauth_success (s : MainServer.Session) (now : Nat)
    (m2m : XeroClient.TokenResult) (tR : MainServer.TenantsResult)
    (toks : XeroClient.Tokens) (rt : String)
    (hauth : ¬ s.authType = some "m2m") (hrt : s.refreshToken = some rt)
    (hrtE : ¬ rt = "") :
    MainServer.refreshSession s now m2m tR (.success toks) =
      (.ok, some (MainServer.setSession s
        { accessToken := some toks.accessToken
          refreshToken := some (XeroClient.jsOrString toks.refreshToken rt)
          expiresAt := some toks.expiresAt } now)) := by
  unfold MainServer.refreshSession
  rw [if_neg hauth, hrt]
  show (if rt = ""
      then (MainServer.EVOutcome.fail "No refresh token available", some s)
      else (MainServer.EVOutcome.ok, some (MainServer.setSession s
        { accessToken := some toks.accessToken
          refreshToken := some (XeroClient.jsOrString toks.refreshToken rt)
          expiresAt := some toks.expiresAt } now))) = _
  rw [if_neg hrtE]

/-- C9 (amended): `setSession` merges rather than replaces: every field of
the existing session that the update does not mention keeps its previous
value, **except** the bookkeeping field `updatedAt`, which `setSession`
always stamps with the current time; in particular the OAuth token-refresh
path of `ensureValidToken` replaces only `accessToken`, `refreshToken`,
`expiresAt` (and `updatedAt`), while conversation history, tenant id,
tenant name, connected flag, auth type and OAuth state stay unchanged. -/
theorem claim_C9_merge_amended (s : MainServer.Session)
    (d : MainServer.SessionUpdate) (now : Nat) :
    ((d.accessToken = none →
        (MainServer.setSession s d now).accessToken = s.accessToken) ∧
     (d.refreshToken = none →
        (MainServer.setSession s d now).refreshToken = s.refreshToken) ∧
     (d.expiresAt = none →
        (MainServer.setSession s d now).expiresAt = s.expiresAt) ∧
     (d.tenantId = none →
        (MainServer.setSession s d now).tenantId = s.tenantId) ∧
     (d.tenantName = none →
        (MainServer.setSession s d now).tenantName = s.tenantName) ∧
     (d.connected = none →
        (MainServer.setSession s d now).connected = s.connected) ∧
     (d.authType = none →
        (MainServer.setSession s d now).authType = s.authType) ∧
     (d.conversationHistory = none →
        (MainServer.setSession s d now).conversationHistory =
          s.conversationHistory) ∧
     (d.oauthState = none →
        (MainServer.setSession s d now).oauthState = s.oauthState) ∧
     (MainServer.setSession s d now).updatedAt = now) ∧
    (∀ (rt : String) (toks : XeroClient.Tokens) (m2m : XeroClient.TokenResult)
        (tR : MainServer.TenantsResult),
      s.connected = true →
      MainServer.needsRefresh s.expiresAt now = true →
      ¬ s.authType = some "m2m" →
      s.refreshToken = some rt → ¬ rt = "" →
      ∃ s', MainServer.ensureValidToken (some s) now m2m tR (.success toks) =
          (.ok, some s') ∧
        s'.accessToken = some toks.accessToken ∧
        s'.refreshToken = some (XeroClient.jsOrString toks.refreshToken rt) ∧
        s'.expiresAt = some toks.expiresAt ∧
        s'.conversationHistory = s.conversationHistory ∧
        s'.tenantId = s.tenantId ∧
        s'.tenantName = s.tenantName ∧
        s'.connected = s.connected ∧
        s'.authType = s.authType ∧
        s'.oauthState = s.oauthState ∧
        s'.updatedAt = now) := by
  constructor
  · refine ⟨?_, ?_, ?_, ?_, ?_, ?_, ?_, ?_, ?_, rfl⟩ <;>
      · intro hd
        show MainServer.mergeField _ _ = _
        rw [hd]
        rfl
  · intro rt toks m2m tR hconn hneeds hauth hrt hrtE
    rw [MainServer.ensureValidToken_refreshing s now m2m tR (.success toks)
      hconn hneeds,
      refreshSession_oauth_success s now m2m tR toks rt hauth hrt hrtE]
    exact ⟨_, rfl, rfl, rfl, rfl, rfl, rfl, rfl, rfl, rfl, rfl, rfl⟩

/-- Witness for the amended C9 at a concrete session: a token refresh
keeps history, tenant, connection flag, auth type and OAuth state. -/
theorem claim_C9_merge_amended_witness :
    ∃ s', MainServer.ensureValidToken
        (some ⟨some "a", some "r", some 5, some "tid", some "tn", true, none,
          ["hello"], some "st", 3⟩) 10
        (.failure "m") ⟨true, []⟩ (.success ⟨"na", some "nr", 1800, none, 999⟩) =
        (.ok, some s') ∧
      s'.accessToken = some "na" ∧
      s'.refreshToken = some (XeroClient.jsOrString (some "nr") "r") ∧
      s'.expiresAt = some 999 ∧
      s'.conversationHistory = ["hello"] ∧
      s'.tenantId = some "tid" ∧
      s'.tenantName = some "tn" ∧
      s'.connected = true ∧
      s'.authType = none ∧
      s'.oauthState = some "st" ∧
      s'.updatedAt = 10 :=
  (claim_C9_merge_amended
      ⟨some "a", some "r", some 5, some "tid", some "tn", true, none,
        ["hello"], some "st", 3⟩ {} 10).2
    "r" ⟨"na", some "nr", 1800, none, 999⟩ (.failure "m") ⟨true, []⟩
    rfl (by decide) (by decide) rfl (by decide)

/-- C10: `getM2MToken`, `exchangeCodeForToken` and `refreshAccessToken`
never throw: every HTTP outcome, including a thrown `axios` error, is
mapped to a returned `{success, ...}` object — failure carries an error,
and success carries tokens with `expiresAt = now + expiresIn * 1000`,
where `expiresIn` is the response's `expires_in` defaulted to 1800 when
absent (or falsy). -/
theorem claim_C10_token_helpers_total :
    (∀ (now : Nat) (o : XeroClient.AxiosOutcome),
      (∀ html data, o = .ok html data →
        XeroClient.getM2MToken now o = .success
          ⟨data.access_token, none, XeroAuth.defaultExpiresIn data.expires_in,
           data.token_type,
           now + XeroAuth.defaultExpiresIn data.expires_in * 1000⟩) ∧
      (∀ st m, o = .err st m → XeroClient.getM2MToken now o = .failure m)) ∧
    (∀ (now : Nat) (o : XeroClient.AxiosOutcome),
      (∀ data, o = .ok false data →
        XeroClient.exchangeCodeForToken now o = .success
          ⟨data.access_token, data.refresh_token,
           XeroAuth.defaultExpiresIn data.expires_in, data.token_type,
           now + XeroAuth.defaultExpiresIn data.expires_in * 1000⟩) ∧
      (∀ data, o = .ok true data →
        XeroClient.exchangeCodeForToken now o =
          .failure "Invalid Xero credentials or redirect URI mismatch") ∧
      (∀ st m, o = .err st m →
        ∃ e, XeroClient.exchangeCodeForToken now o = .failure e)) ∧
    (∀ (rt : String) (now : Nat) (o : XeroClient.AxiosOutcome),
      (∀ html data, o = .ok html data →
        XeroClient.refreshAccessToken rt now o = .success
          ⟨data.access_token,
           some (XeroClient.jsOrString data.refresh_token rt),
           XeroAuth.defaultExpiresIn data.expires_in, data.token_type,
           now + XeroAuth.defaultExpiresIn data.expires_in * 1000⟩) ∧
      (∀ st m, o = .err st m →
        XeroClient.refreshAccessToken rt now o = .failure m)) ∧
    (∀ o : Option Nat, o = none → XeroAuth.defaultExpiresIn o = 1800) := by
  refine ⟨?_, ?_, ?_, ?_⟩
  · intro now o
    constructor
    · intro html data ho
      subst ho
      rfl
    · intro st m ho
      subst ho
      rfl
  · intro now o
    refine ⟨?_, ?_, ?_⟩
    · intro data ho
      subst ho
      rfl
    · intro data ho
      subst ho
      rfl
    · intro st m ho
      subst ho
      show ∃ e, (if st = some 401 then
          XeroClient.TokenResult.failure
            "Authentication failed: Invalid Client ID, Client Secret, or Redirect URI"
        else XeroClient.TokenResult.failure m) = XeroClient.TokenResult.failure e
      by_cases hst : st = some 401
      · rw [if_pos hst]
        exact ⟨_, rfl⟩
      · rw [if_neg hst]
        exact ⟨_, rfl⟩
  · intro rt now o
    constructor
    · intro html data ho
      subst ho
      rfl
    · intro st m ho
      subst ho
      rfl
  · intro o ho
    subst ho
    rfl

/-- Witness for C10 at concrete outcomes: a thrown error yields a failure
object, a success response yields the computed expiry. -/
theorem claim_C10_token_helpers_total_witness :
    XeroClient.getM2MToken 100 (.err (some 500) "boom") = .failure "boom" ∧
    XeroClient.refreshAccessToken "rt" 100
        (.ok false ⟨"at", none, none, none⟩) =
      .success ⟨"at", some "rt", 1800, none, 100 + 1800 * 1000⟩ :=
  ⟨(claim_C10_token_helpers_total.1 100 (.err (some 500) "boom")).2
      (some 500) "boom" rfl,
   (claim_C10_token_helpers_total.2.2.1 "rt" 100
      (.ok false ⟨"at", none, none, none⟩)).1 false ⟨"at", none, none, none⟩ rfl⟩

/-- C8: every promise returned by `sendRequest` settles exactly once —
with the first received message whose `id` matches the request's unique
correlation id when one arrives before the 30 s timer fires, and with the
`'MCP request timeout'` rejection otherwise; messages arriving after the
timer (the `post` events) or whose id matches no pending request are
discarded and settle nothing. -/
theorem claim_C8_settles_once (myId : MCP.MCPId)
    (pre post : List MCP.MCPEvent) (hnf : MCP.MCPEvent.fire ∉ pre) :
    ((MCP.firstMatch myId pre = none →
        MCP.mcpRun myId MCP.initReq (pre ++ MCP.MCPEvent.fire :: post) =
          ⟨false, some (.error "MCP request timeout")⟩) ∧
     (∀ m, MCP.firstMatch myId pre = some m →
        MCP.mcpRun myId MCP.initReq (pre ++ MCP.MCPEvent.fire :: post) =
          ⟨false, some (.ok m)⟩)) ∧
    (∀ (s : MCP.ReqState) (m : MCP.MCPMsg),
      (∀ i, m.id = some i → ¬ i = myId) →
      MCP.mcpStep myId s (.recv m) = s) := by
  constructor
  · exact MCP.mcpRun_full myId pre post hnf
  · intro s m hm
    show (match m.id with
      | some i =>
          if s.pending && decide (i = myId)
          then (⟨false, some (.ok m)⟩ : MCP.ReqState) else s
      | none => s) = s
    rcases hid : m.id with _ | i
    · rfl
    · show (if (s.pending && decide (i = myId)) = true
          then (⟨false, some (.ok m)⟩ : MCP.ReqState) else s) = s
      rw [if_neg]
      simp only [Bool.and_eq_true, decide_eq_true_eq, not_and]
      intro _ hi
      exact hm i hid hi

/-- Witness for C8: a matching response before the timer resolves the
request; with no matching traffic the request rejects at the timer. -/
theorem claim_C8_settles_once_witness :
    (MCP.mcpRun (5, 0) MCP.initReq
        ([.recv ⟨some (7, 1), 4⟩, .recv ⟨some (5, 0), 9⟩] ++
          MCP.MCPEvent.fire :: [.recv ⟨some (5, 0), 11⟩]) =
      ⟨false, some (.ok ⟨some (5, 0), 9⟩)⟩) ∧
    (MCP.mcpRun (5, 0) MCP.initReq
        ([.recv ⟨some (7, 1), 4⟩] ++ MCP.MCPEvent.fire :: []) =
      ⟨false, some (.error "MCP request timeout")⟩) :=
  ⟨((claim_C8_settles_once (5, 0)
        [.recv ⟨some (7, 1), 4⟩, .recv ⟨some (5, 0), 9⟩]
        [.recv ⟨some (5, 0), 11⟩] (by decide)).1).2 ⟨some (5, 0), 9⟩ (by decide),
   ((claim_C8_settles_once (5, 0) [.recv ⟨some (7, 1), 4⟩] [] (by decide)).1).1
      (by decide)⟩

/-- C1 counterexample: the 500 ms cooldown is **not** respected for an
operation enqueued while the cooldown is in progress.  Workload: `add`
operation 0 at t = 0 (10 ms long) and operation 1 at t = 100 — inside the
cooldown window [10, 510) — with both succeeding.  Because `process()`
clears `isProcessing` before arming the timer, operation 1 starts at
t = 100, only 90 ms after operation 0 settled at t = 10, so the history
violates the "gap ≥ cooldown" property the claim states for every pair. -/
theorem claim_C1_cooldown_counterexample :
    (GLMQueue.run ⟨2, fun k => if k = 0 then 0 else 100, fun _ => 10,
        fun _ => true⟩ 8 GLMQueue.init).hist =
      [⟨0, 0, 10, true⟩, ⟨1, 100, 110, true⟩] ∧
    ¬ ((GLMQueue.run ⟨2, fun k => if k = 0 then 0 else 100, fun _ => 10,
        fun _ => true⟩ 8 GLMQueue.init).hist.Pairwise
          fun a b => a.stop + GLMQueue.cooldown ≤ b.start) := by
  decide

/-- C1 (amended): after one operation settles, the next queued operation
does not start until the 500 ms cooldown has elapsed — regardless of
whether the earlier operation succeeded or failed — **provided no `add`
call arrives inside a cooldown window** `[stop, stop + cooldown)`; an
operation enqueued while the cooldown is in progress starts immediately
instead, because `process()` clears `isProcessing` before arming the
timer.  Under that arrival restriction, consecutive executions in the
history are separated by at least the cooldown, and so is any operation
still in flight from every settled one. -/
theorem claim_C1_cooldown_amended (env : GLMQueue.QEnv) (hw : env.Wf)
    (fuel : Nat)
    (H : GLMQueue.NoAddInCooldown env (GLMQueue.run env fuel GLMQueue.init).hist) :
    ((GLMQueue.run env fuel GLMQueue.init).hist.Pairwise
      fun a b => a.stop + GLMQueue.cooldown ≤ b.start) ∧
    (∀ r, (GLMQueue.run env fuel GLMQueue.init).running = some r →
      ∀ a ∈ (GLMQueue.run env fuel GLMQueue.init).hist,
        a.stop + GLMQueue.cooldown ≤ r.start) := by
  have g := GLMQueue.ginv_run env hw fuel GLMQueue.init
    (GLMQueue.inv_init env) (GLMQueue.ginv_init env) H
  exact ⟨g.gchain, fun r hr => (g.grun r hr).1⟩

/-- Witness for the amended C1: two operations added at t = 0 and
t = 1000 (outside the cooldown window [10, 510)); the second starts
990 ms after the first settles, ≥ the 500 ms cooldown. -/
theorem claim_C1_cooldown_amended_witness :
    ((GLMQueue.run ⟨2, fun k => if k = 0 then 0 else 1000, fun _ => 10,
        fun _ => false⟩ 10 GLMQueue.init).hist.Pairwise
      fun a b => a.stop + GLMQueue.cooldown ≤ b.start) := by
  have hw : GLMQueue.QEnv.Wf ⟨2, fun k => if k = 0 then 0 else 1000,
      fun _ => 10, fun _ => false⟩ := by
    intro k
    cases k <;> simp
  exact (claim_C1_cooldown_amended _ hw 10 (by decide)).1

/-- C3: operations submitted to the queue begin execution and complete in
exactly their submission order: the settled history lists operation
indices `0, 1, 2, ...` in order (settlement order equals start order,
since executions never overlap), and the operation in flight, if any, is
the next index after the settled ones.  This holds whatever the
operations' durations — a faster later operation never overtakes. -/
theorem claim_C3_fifo_order (env : GLMQueue.QEnv) (hw : env.Wf) (fuel : Nat) :
    (GLMQueue.run env fuel GLMQueue.init).hist.map GLMQueue.RunRec.op =
      List.range (GLMQueue.run env fuel GLMQueue.init).hist.length ∧
    (∀ r, (GLMQueue.run env fuel GLMQueue.init).running = some r →
      r.op = (GLMQueue.run env fuel GLMQueue.init).hist.length) :=
  GLMQueue.inv_hist_ops env _
    (GLMQueue.inv_run env hw fuel GLMQueue.init (GLMQueue.inv_init env))

/-- Witness for C3: three simultaneous submissions where the later
operations would finish faster alone (durations 300, 10, 10); completion
order is still 0, 1, 2. -/
theorem claim_C3_fifo_order_witness :
    (GLMQueue.run ⟨3, fun _ => 0, fun k => if k = 0 then 300 else 10,
        fun _ => true⟩ 12 GLMQueue.init).hist.map GLMQueue.RunRec.op =
      List.range (GLMQueue.run ⟨3, fun _ => 0, fun k => if k = 0 then 300 else 10,
        fun _ => true⟩ 12 GLMQueue.init).hist.length :=
  (claim_C3_fifo_order ⟨3, fun _ => 0, fun k => if k = 0 then 300 else 10,
      fun _ => true⟩ (fun _ => le_refl 0) 12).1

/-- C5: with enough fuel to drain the workload (4 events per submission),
every submitted operation is executed exactly once — the history is
exactly `0, 1, ..., n-1` in order, with no retry and no skipped
operation — and each settles with its own outcome: its recorded result is
its own `outc` value (the resolution/rejection handed to its caller) and
its settlement instant is its start plus its own duration.  In
particular a rejecting operation (`outc k = false`) does not prevent any
later operation from running. -/
theorem claim_C5_own_outcome (env : GLMQueue.QEnv) (hw : env.Wf) :
    (GLMQueue.run env (4 * env.n) GLMQueue.init).hist.map GLMQueue.RunRec.op =
      List.range env.n ∧
    (∀ r ∈ (GLMQueue.run env (4 * env.n) GLMQueue.init).hist,
      r.stop = r.start + env.dur r.op ∧ r.result = env.outc r.op) := by
  have hinv := GLMQueue.inv_run env hw (4 * env.n) GLMQueue.init
    (GLMQueue.inv_init env)
  have hdead := GLMQueue.dead_run env hw (4 * env.n) GLMQueue.init
    (GLMQueue.inv_init env) (by unfold GLMQueue.measureQ GLMQueue.init; simp)
  obtain ⟨hrn, htm, hna⟩ := hdead
  have hq := hinv.deadQueue hrn htm
  have hord := hinv.order
  rw [hrn, hq, hna] at hord
  constructor
  · simpa [GLMQueue.runList] using hord
  · exact hinv.histShape

/-- Witness for C5: two simultaneous submissions where the first rejects;
both run, in order, each recording its own outcome. -/
theorem claim_C5_own_outcome_witness :
    (GLMQueue.run ⟨2, fun _ => 0, fun _ => 10, fun k => decide (k = 1)⟩
        (4 * 2) GLMQueue.init).hist.map GLMQueue.RunRec.op = List.range 2 :=
  (claim_C5_own_outcome ⟨2, fun _ => 0, fun _ => 10, fun k => decide (k = 1)⟩
    (fun _ => le_refl 0)).1

/-- C7: at most one queued operation executes at any time: the in-flight
slot is a single `Option` guarded by `isProcessing`, and the execution
intervals `[start, stop]` recorded in any reachable history are totally
ordered — each settles no later than the next starts — and every settled
interval ends no later than the start of the operation currently in
flight.  Hence no two execution intervals overlap. -/
theorem claim_C7_no_overlap (env : GLMQueue.QEnv) (hw : env.Wf) (fuel : Nat) :
    ((GLMQueue.run env fuel GLMQueue.init).hist.Pairwise
      fun a b => a.stop ≤ b.start) ∧
    (∀ r, (GLMQueue.run env fuel GLMQueue.init).running = some r →
      ∀ a ∈ (GLMQueue.run env fuel GLMQueue.init).hist, a.stop ≤ r.start) := by
  have hinv := GLMQueue.inv_run env hw fuel GLMQueue.init
    (GLMQueue.inv_init env)
  exact ⟨hinv.histChain,
    fun r hr => (hinv.runningBounds r hr).2.2.2.2⟩

/-- Witness for C7: three simultaneous submissions; the recorded
execution intervals are pairwise non-overlapping. -/
theorem claim_C7_no_overlap_witness :
    ((GLMQueue.run ⟨3, fun _ => 0, fun _ => 10, fun _ => true⟩ 12
        GLMQueue.init).hist.Pairwise fun a b => a.stop ≤ b.start) :=
  (claim_C7_no_overlap ⟨3, fun _ => 0, fun _ => 10, fun _ => true⟩
    (fun _ => le_refl 0) 12).1
